import Mathlib

/-!
Verification of the process-isolation / remote-invocation / shared-memory
streaming layer of the brain-python-interface repository.

The development shallowly embeds the two source files the claims point at:

* `src/riglib/shm.py` — `DataSource` (the spec's StreamBuffer/StreamSource):
  a fixed-capacity circular buffer of fixed-size numeric records living in a
  flat shared array, written by the polling loop in `DataSource.run` and
  destructively read by `DataSource.get`.

* `src/db/tasktrack.py` — `Track` (the spec's TaskHost), the worker-side
  `runtask` dispatch loop, and the `ObjProxy`/`FuncProxy` RPC client classes.

Modelling conventions:

* The shared `RawArray('d', ...)` of doubles is modelled as a `List Int`:
  no arithmetic is ever performed on the stored samples, so the element
  type only needs decidable equality.
* Python exceptions that a function lets escape are modelled with `Except`
  or dedicated result constructors; exceptions that the source catches and
  swallows (bare `except:` clauses) are recorded in explicit `caught`
  fields so the theorems can distinguish "raised" from "caught and logged".
* Calls that cross a process boundary (pipe round trips, the hardware
  collaborator, the remote task object) are parameters of the functions
  that perform them, supplied as values or `Except` outcomes.
-/

/-! ## List helpers shared by the embedding -/

/-- Python slice assignment `l[i:i+len(r)] = r` on a flat array. -/
def setSlice (l : List Int) (i : Nat) (r : List Int) : List Int :=
  l.take i ++ r ++ l.drop (i + r.length)

/-- Fuel-driven worker for `chunks`; the fuel is only a structural-recursion
device and any fuel at least `l.length` gives the same value when `0 < D`. -/
def chunksAux (D : Nat) : Nat → List Int → List (List Int)
  | _, [] => []
  | 0, _ :: _ => []
  | fuel + 1, x :: xs => ((x :: xs).take D) :: chunksAux D fuel ((x :: xs).drop D)

/-- Split a flat list into consecutive blocks of `D` elements: the effect of
`np.array(data).reshape((-1,) + slice_shape)` when it succeeds
(`slice_shape` multiplies out to `D`, and `D` is positive wherever the
source performs the reshape). -/
def chunks (D : Nat) (l : List Int) : List (List Int) :=
  chunksAux D l.length l

/-- Python's substring test `needle in hay` begins-with helper. -/
def pyStartsWith : List Char → List Char → Bool
  | _, [] => true
  | [], _ :: _ => false
  | a :: as, b :: bs => a = b && pyStartsWith as bs

/-- Python's `needle in hay` on strings: substring containment.
Note `pyIn [] hay = true` — the empty string is a substring of everything. -/
def pyIn (needle : List Char) : List Char → Bool
  | [] => needle.isEmpty
  | c :: t => pyStartsWith (c :: t) needle || pyIn needle t

/-! ## riglib/shm.py — DataSource ring buffer -/

/-- The shared ring-buffer state of `shm.DataSource`:
`max_size = bufferlen * update_freq` records of `slice_size` doubles each,
held in the flat array `self.data = RawArray('d', max_size*slice_size)`,
with the monotone write cursor `self.idx = RawValue('l', 0)`. -/
structure DataSource where
  max_size : Nat
  slice_size : Nat
  data : List Int
  idx : Nat
  deriving DecidableEq

/-- A freshly constructed `DataSource` (shared ctypes memory is
zero-initialised, `idx` starts at 0). -/
def DataSource.fresh (C D : Nat) : DataSource :=
  { max_size := C, slice_size := D, data := List.replicate (C * D) 0, idx := 0 }

/-- Well-formedness as established by `DataSource.__init__` for every concrete
subclass in the file: positive capacity and record size, and backing storage
of exactly `max_size * slice_size` scalars. -/
def DataSource.Wf (ds : DataSource) : Prop :=
  0 < ds.max_size ∧ 0 < ds.slice_size ∧ ds.data.length = ds.max_size * ds.slice_size

/-- Result of one buffer write in the streaming branch of `DataSource.run`:
the successor state plus the diagnostic printed by the bare `except:` when the
write raised (the exception never propagates out of the loop body). -/
structure WriteOut where
  ds : DataSource
  caught : Option String
  deriving DecidableEq

/-- The write in `DataSource.run` (shm.py lines 76–84):

    self.lock.acquire()
    i = self.idx.value % self.max_size
    self.data[i*size:(i+1)*size] = np.ravel(data)
    self.idx.value += 1
    self.lock.release()

wrapped in `try: ... except: print repr(data)`.  `% 0` raises
`ZeroDivisionError`; ctypes slice assignment raises `ValueError` unless the
flattened record has exactly `slice_size` elements; both are caught by the
bare `except`, leaving `data` and `idx` unchanged. -/
def DataSource.writeRec (ds : DataSource) (rec : List Int) : WriteOut :=
  if ds.max_size = 0 then { ds := ds, caught := some "ZeroDivisionError" }
  else if rec.length = ds.slice_size then
    { ds := { ds with
        data := setSlice ds.data ((ds.idx % ds.max_size) * ds.slice_size) rec,
        idx := ds.idx + 1 },
      caught := none }
  else { ds := ds, caught := some "ValueError" }

/-- A sequence of streaming-loop writes (diagnostics are printed and
discarded by the loop, so only the state threads through). -/
def DataSource.writeMany (ds : DataSource) (rs : List (List Int)) : DataSource :=
  rs.foldl (fun d r => (d.writeRec r).ds) ds

/-- The flat region sliced out by `DataSource.get` before the reshape:

    i = (self.idx.value % self.max_size) * self.slice_size
    if self.idx.value > self.max_size:
        data = self.data[i:] + self.data[:i]
    else:
        data = self.data[:i]
-/
def DataSource.getFlat (ds : DataSource) : List Int :=
  let i := (ds.idx % ds.max_size) * ds.slice_size
  if ds.max_size < ds.idx then ds.data.drop i ++ ds.data.take i
  else ds.data.take i

/-- What `DataSource.get` hands back: the reshaped records when
`np.array(data).reshape((-1,)+self.slice_shape)` succeeded, or — because the
reshape sits in a `try: ... except: print ...` — the still-flat, undecoded
region when it failed. -/
inductive GetResult where
  | shaped (rows : List (List Int))
  | unshaped (flat : List Int)
  deriving DecidableEq

/-- `DataSource.get` (shm.py lines 91–107): slice the flat region, reset
`idx` to 0 (destructive read), then attempt the reshape; a reshape failure is
caught and the flat data returned as-is.  `self.filter` is `None` as
constructed in this file, so the filter branch is not taken. -/
def DataSource.get (ds : DataSource) : GetResult × DataSource :=
  let flat := ds.getFlat
  (if ds.slice_size ≠ 0 ∧ flat.length % ds.slice_size = 0 then
      GetResult.shaped (chunks ds.slice_size flat)
    else GetResult.unshaped flat,
   { ds with idx := 0 })

/-! ## riglib/shm.py — the run loop of the StreamSource process -/

/-- A Python value travelling over a pipe: enough structure to distinguish a
successful result from an exception instance carried as data. -/
inductive PyVal where
  | int (n : Int)
  | str (s : List Char)
  | excObj (e : String)
  | pynone
  deriving DecidableEq

/-- Producer-side state of the `DataSource.run` loop: the shared buffer, the
loop-local `streaming` flag, the `self.stream` toggle event, and the log of
samples fanned out to the registered sinks (`for s in self.sinks: s.send(...)`
— one entry per loop iteration that reached the fan-out). -/
structure SrcState where
  ds : DataSource
  streaming : Bool
  streamEvent : Bool
  sinkLog : List (Option (List Int))
  deriving DecidableEq

/-- Command servicing (shm.py lines 46–60): when `cmd_event` is set, dispatch
the received command against the hardware system under the lock and reply on
the pipe; exceptions raised during dispatch are caught and sent back as the
exception object.  The dispatch happens inside the hardware collaborator, so
its outcome is a parameter; the buffer state is untouched either way. -/
def SrcState.cmdStep (s : SrcState) (cmdPending : Bool)
    (dispatch : Except String PyVal) : SrcState × Option PyVal :=
  if cmdPending then
    (s, some (match dispatch with
      | .ok v => v
      | .error e => PyVal.excObj e))
  else (s, none)

/-- Streaming-toggle servicing (shm.py lines 62–69):

    if self.stream.is_set():
        self.stream.clear()
        streaming = not streaming
        if streaming:
            self.idx.value = 0
            system.start()
        else:
            system.stop()
-/
def SrcState.toggleStep (s : SrcState) : SrcState :=
  if s.streamEvent then
    if !s.streaming then
      { s with streamEvent := false, streaming := true,
               ds := { s.ds with idx := 0 } }
    else
      { s with streamEvent := false, streaming := false }
  else s

/-- Sample acquisition and write (shm.py lines 71–86): while streaming, the
sample returned by `system.get()` is sent to every sink unconditionally, and
written into the ring buffer only when it is not `None`; while not streaming
the loop just sleeps. -/
def SrcState.sampleStep (s : SrcState) (sample : Option (List Int)) : SrcState :=
  if s.streaming then
    let s1 := { s with sinkLog := s.sinkLog ++ [sample] }
    match sample with
    | none => s1
    | some d => { s1 with ds := (s1.ds.writeRec d).ds }
  else s

/-- One full iteration of the `while self.status.value > 0` loop body. -/
def SrcState.loopIter (s : SrcState) (cmdPending : Bool)
    (dispatch : Except String PyVal) (sample : Option (List Int)) :
    SrcState × Option PyVal :=
  let p := s.cmdStep cmdPending dispatch
  ((p.1.toggleStep).sampleStep sample, p.2)

/-! ## db/tasktrack.py — Track (the TaskHost) -/

/-- Supervisor-side state of `tasktrack.Track`: the shared status char array
(`""` when idle), whether `self.task` is bound to an `ObjProxy` (`false`
models Python `None`), and a count of worker processes spawned so far — the
observable effect of `self.proc.start()`. -/
structure Track where
  status : List Char
  task : Bool
  procSpawned : Nat
  deriving DecidableEq

/-- A fresh `Track` (`mp.Array('c', 256)` zero-fills, so `status.value` reads
as the empty string; `self.task = None`). -/
def Track.fresh : Track := { status := [], task := false, procSpawned := 0 }

/-- `Track.runtask` (tasktrack.py lines 33–48): unconditionally sets

    self.status.value = "testing" if 'saveid' in kwargs else "running"

binds `self.task` to a new `ObjProxy`, and spawns the worker process.  There
is no check that another task is already active. -/
def Track.runtask (tr : Track) (saveidPresent : Bool) : Track :=
  { status := if saveidPresent then "testing".toList else "running".toList,
    task := true,
    procSpawned := tr.procSpawned + 1 }

/-- The status label the worker-side `runtask` computes from the same config
(tasktrack.py line 88): `status = "running" if 'saveid' in kwargs else "testing"`. -/
def workerStatusLabel (saveidPresent : Bool) : List Char :=
  if saveidPresent then "running".toList else "testing".toList

/-- Outcome of `Track.stoptask`: the `assert` propagating, the structured
`dict(status="error", msg=...)` payload built in the `except` clause, or the
prior status string returned on success. -/
inductive StopResult where
  | assertionFailed
  | errorPayload (msg : String)
  | statusStr (st : List Char)
  deriving DecidableEq

/-- `Track.stoptask` (tasktrack.py lines 56–71):

    assert self.status.value in "testing,running"
    try:
        self.task.end_task()
    except Exception as e:
        ...
        return dict(status="error", msg=err.read())
    status = self.status.value
    self.status.value = ""
    self.task = None
    return status

The assert is a Python *substring* test on `"testing,running"`.  When
`self.task` is `None`, `self.task.end_task` raises `AttributeError`, which
the `except Exception` clause catches.  The remote `end_task` call crosses
the process boundary, so its outcome is the parameter `endTaskCall`.  Note
the `except` clause returns *before* the status reset lines. -/
def Track.stoptask (tr : Track) (endTaskCall : Except String PyVal) :
    StopResult × Track :=
  if ¬ pyIn tr.status ("testing,running".toList) then (.assertionFailed, tr)
  else if tr.task = false then
    (.errorPayload "AttributeError: 'NoneType' object has no attribute 'end_task'", tr)
  else
    match endTaskCall with
    | .error e => (.errorPayload e, tr)
    | .ok _ => (.statusStr tr.status, { tr with status := [], task := false })

/-! ## db/tasktrack.py — FuncProxy (the spec's MethodProxy) -/

/-- The `(name, args, kwargs)` tuple `FuncProxy.__call__` pushes onto the
pipe. -/
structure SentMsg where
  name : String
  args : List PyVal
  deriving DecidableEq

/-- `FuncProxy.__call__` (tasktrack.py lines 273–275):

    self.pipe.send((self.cmd, args, kwargs))
    return self.pipe.recv()

The response read back from the pipe is the parameter `response`; whatever
arrives — exception object included — is returned as an ordinary value. -/
def FuncProxy.call (cmd : String) (args : List PyVal) (response : PyVal) :
    SentMsg × Except String PyVal :=
  ({ name := cmd, args := args }, .ok response)

/-- Modelled from the spec (§4.2): the behavior the spec ascribes to
`MethodProxy.call` — return the value, or *raise* the carried RemoteError
when the response is an exception.  Stated only to be compared with the
source's `FuncProxy.call`. -/
def specMethodProxyCall (cmd : String) (args : List PyVal) (response : PyVal) :
    SentMsg × Except String PyVal :=
  ({ name := cmd, args := args },
   match response with
   | .excObj e => .error e
   | v => .ok v)

/-! ## db/tasktrack.py — the worker-side runtask dispatch loop -/

/-- Outcome of dispatching one received command inside the worker loop
(tasktrack.py lines 128–152): the `getattr(task, fn_name)(*args, **kwargs)`
call plus the `_cmds.send(ret)` either succeed, raise `KeyboardInterrupt`
(handled by setting `cmd = None`), or raise some other exception — in which
case the exception is sent back as data and `_cmds.poll(60.)` decides whether
a follow-up command arrives inside the 60-second window. -/
inductive DispatchRes where
  | ok (v : PyVal)
  | raised (e : String) (followUpArrives : Bool)
  | kbInterrupt
  deriving DecidableEq

/-- One value produced by `_cmds.recv()`: the sentinel `None` or a command
tuple whose dispatch behaves as recorded. -/
inductive RecvRes where
  | sentinel
  | cmd (d : DispatchRes)
  deriving DecidableEq

/-- The command the loop holds after a recv. -/
def RecvRes.toCmd : RecvRes → Option DispatchRes
  | .sentinel => none
  | .cmd d => some d

/-- How the `while cmd is not None and task.task.state is not None` loop
ended.  `blockedOnRecv` marks the modelling boundary where a real `recv()`
would block forever because the script of incoming messages is exhausted. -/
inductive LoopExit where
  | cmdNone
  | stateNone
  | blockedOnRecv
  deriving DecidableEq

/-- The worker dispatch loop (tasktrack.py lines 123–152).  `aliveAt n` is
the value of `task.task.state is not None` at the n-th while-test; `script`
supplies successive `_cmds.recv()` results.  A dispatch exception whose
60-second window expires, and a `KeyboardInterrupt`, both set `cmd = None`,
so the next while-test exits through the `cmdNone` arm. -/
def dispatchLoop (aliveAt : Nat → Bool) :
    Nat → Option DispatchRes → List RecvRes → LoopExit
  | _, none, _ => .cmdNone
  | n, some d, script =>
    if aliveAt n = false then .stateNone
    else
      match d with
      | .kbInterrupt => .cmdNone
      | .raised _ false => .cmdNone
      | .ok _ =>
        match script with
        | [] => .blockedOnRecv
        | r :: rest => dispatchLoop aliveAt (n + 1) r.toCmd rest
      | .raised _ true =>
        match script with
        | [] => .blockedOnRecv
        | r :: rest => dispatchLoop aliveAt (n + 1) r.toCmd rest

/-- Observable outcome of one worker `runtask` execution. -/
structure WorkerRun where
  cleanupCalls : Nat
  websockError : Option String
  uncaught : Option String
  deriving DecidableEq

/-- The worker-side `runtask` (tasktrack.py lines 119–167):

    try:
        task = Task(**kwargs)
        cmd = _cmds.recv()
        while cmd is not None and task.task.state is not None:
            ...dispatch loop...
    except:
        ...websock.send(dict(status="error", msg=err.read()))...
    sys.stdout = sys.__stdout__
    task.cleanup()

When `Task(**kwargs)` raises, the `except` clause forwards the error payload
to the notification sink — but the local name `task` was never bound, so the
following `task.cleanup()` raises `UnboundLocalError` and no cleanup hook
runs.  When construction succeeds, every loop exit falls through to the
single `task.cleanup()` call.  A loop that blocks forever on `recv()` never
reaches it. -/
def runtaskWorker (construct : Except String Unit) (aliveAt : Nat → Bool)
    (script : List RecvRes) : WorkerRun :=
  match construct with
  | .error e =>
    { cleanupCalls := 0, websockError := some e,
      uncaught := some "UnboundLocalError" }
  | .ok _ =>
    match script with
    | [] => { cleanupCalls := 0, websockError := none, uncaught := none }
    | r :: rest =>
      match dispatchLoop aliveAt 0 r.toCmd rest with
      | .blockedOnRecv => { cleanupCalls := 0, websockError := none, uncaught := none }
      | _ => { cleanupCalls := 1, websockError := none, uncaught := none }

/-! ## Ring-buffer lemmas -/

theorem chunksAux_fuel (D : Nat) (hD : D ≠ 0) :
    ∀ (f g : Nat) (l : List Int), l.length ≤ f → l.length ≤ g →
      chunksAux D f l = chunksAux D g l := by
  intro f
  induction f with
  | zero =>
    intro g l hf _
    have : l = [] := List.eq_nil_of_length_eq_zero (Nat.le_zero.mp hf)
    subst this
    cases g <;> rfl
  | succ f ih =>
    intro g l hf hg
    match l with
    | [] => cases g <;> rfl
    | x :: xs =>
      match g with
      | 0 => simp at hg
      | g + 1 =>
        show ((x :: xs).take D) :: chunksAux D f ((x :: xs).drop D) =
          ((x :: xs).take D) :: chunksAux D g ((x :: xs).drop D)
        have hdf : ((x :: xs).drop D).length ≤ f := by
          simp only [List.length_drop, List.length_cons] at *
          omega
        have hdg : ((x :: xs).drop D).length ≤ g := by
          simp only [List.length_drop, List.length_cons] at *
          omega
        rw [ih _ _ hdf hdg]

theorem chunks_nil (D : Nat) : chunks D [] = [] := rfl

theorem chunks_expand (D : Nat) (hD : D ≠ 0) (l : List Int) (hl : l ≠ []) :
    chunks D l = l.take D :: chunks D (l.drop D) := by
  match l with
  | [] => exact absurd rfl hl
  | x :: xs =>
    show ((x :: xs).take D) :: chunksAux D xs.length ((x :: xs).drop D) = _
    have hd1 : ((x :: xs).drop D).length ≤ xs.length := by
      simp only [List.length_drop, List.length_cons]
      omega
    rw [chunksAux_fuel D hD xs.length ((x :: xs).drop D).length _ hd1 le_rfl]
    rfl

theorem chunks_cons (D : Nat) (hD : D ≠ 0) (a l : List Int) (ha : a.length = D) :
    chunks D (a ++ l) = a :: chunks D l := by
  have hane : a ≠ [] := by
    intro h
    subst h
    exact hD ha.symm
  rw [chunks_expand D hD (a ++ l) (by simp [hane]), List.take_left' ha, List.drop_left' ha]

theorem chunks_length (D : Nat) (hD : D ≠ 0) :
    ∀ (C : Nat) (l : List Int), l.length = C * D → (chunks D l).length = C := by
  intro C
  induction C with
  | zero =>
    intro l hl
    have : l = [] := List.eq_nil_of_length_eq_zero (by simpa using hl)
    subst this
    rfl
  | succ C ih =>
    intro l hl
    have hlne : l ≠ [] := by
      intro h
      subst h
      simp at hl
      omega
    rw [chunks_expand D hD l hlne]
    have hd : (l.drop D).length = C * D := by
      simp only [List.length_drop, hl]
      have : (C + 1) * D = C * D + D := by ring
      omega
    simp [ih _ hd]

theorem chunks_append (D : Nat) (hD : D ≠ 0) :
    ∀ (k : Nat) (a b : List Int), a.length = k * D →
      chunks D (a ++ b) = chunks D a ++ chunks D b := by
  intro k
  induction k with
  | zero =>
    intro a b ha
    have : a = [] := List.eq_nil_of_length_eq_zero (by simpa using ha)
    subst this
    simp [chunks_nil]
  | succ k ih =>
    intro a b ha
    have hDle : D ≤ a.length := by
      rw [ha]
      have : (k + 1) * D = k * D + D := by ring
      omega
    have ht : (a.take D).length = D := by
      simp only [List.length_take]
      omega
    have hd : (a.drop D).length = k * D := by
      simp only [List.length_drop, ha]
      have : (k + 1) * D = k * D + D := by ring
      omega
    have hsplit : a = a.take D ++ a.drop D := (List.take_append_drop D a).symm
    calc chunks D (a ++ b)
        = chunks D (a.take D ++ (a.drop D ++ b)) := by rw [← List.append_assoc, ← hsplit]
      _ = a.take D :: chunks D (a.drop D ++ b) := chunks_cons D hD _ _ ht
      _ = a.take D :: (chunks D (a.drop D) ++ chunks D b) := by rw [ih _ _ hd]
      _ = (a.take D :: chunks D (a.drop D)) ++ chunks D b := rfl
      _ = chunks D (a.take D ++ a.drop D) ++ chunks D b := by
            rw [chunks_cons D hD _ _ ht]
      _ = chunks D a ++ chunks D b := by rw [← hsplit]

theorem chunks_take (D : Nat) (hD : D ≠ 0) :
    ∀ (m C : Nat) (l : List Int), l.length = C * D → m ≤ C →
      chunks D (l.take (m * D)) = (chunks D l).take m := by
  intro m
  induction m with
  | zero => simp [chunks_nil]
  | succ m ih =>
    intro C l hl hm
    match C with
    | 0 => omega
    | C + 1 =>
      have hDle : D ≤ l.length := by
        rw [hl]
        have : (C + 1) * D = C * D + D := by ring
        omega
      have hlne : l ≠ [] := by
        intro h
        subst h
        simp at hDle
        omega
      have ht : (l.take D).length = D := by
        simp only [List.length_take]
        omega
      have hd : (l.drop D).length = C * D := by
        simp only [List.length_drop, hl]
        have : (C + 1) * D = C * D + D := by ring
        omega
      have hstep : (m + 1) * D = D + m * D := by ring
      calc chunks D (l.take ((m + 1) * D))
          = chunks D (l.take D ++ (l.drop D).take (m * D)) := by
            rw [hstep, List.take_add]
        _ = l.take D :: chunks D ((l.drop D).take (m * D)) := chunks_cons D hD _ _ ht
        _ = l.take D :: (chunks D (l.drop D)).take m := by
            rw [ih C (l.drop D) hd (by omega)]
        _ = (l.take D :: chunks D (l.drop D)).take (m + 1) := rfl
        _ = (chunks D l).take (m + 1) := by rw [← chunks_expand D hD l hlne]

theorem chunks_drop (D : Nat) (hD : D ≠ 0) :
    ∀ (m C : Nat) (l : List Int), l.length = C * D → m ≤ C →
      chunks D (l.drop (m * D)) = (chunks D l).drop m := by
  intro m
  induction m with
  | zero => simp
  | succ m ih =>
    intro C l hl hm
    match C with
    | 0 => omega
    | C + 1 =>
      have hDle : D ≤ l.length := by
        rw [hl]
        have : (C + 1) * D = C * D + D := by ring
        omega
      have hlne : l ≠ [] := by
        intro h
        subst h
        simp at hDle
        omega
      have hd : (l.drop D).length = C * D := by
        simp only [List.length_drop, hl]
        have : (C + 1) * D = C * D + D := by ring
        omega
      have hstep : (m + 1) * D = D + m * D := by ring
      calc chunks D (l.drop ((m + 1) * D))
          = chunks D ((l.drop D).drop (m * D)) := by rw [List.drop_drop, hstep]
        _ = (chunks D (l.drop D)).drop m := ih C (l.drop D) hd (by omega)
        _ = (l.take D :: chunks D (l.drop D)).drop (m + 1) := rfl
        _ = (chunks D l).drop (m + 1) := by rw [← chunks_expand D hD l hlne]

theorem setSlice_length (l : List Int) (i : Nat) (r : List Int)
    (h : i + r.length ≤ l.length) : (setSlice l i r).length = l.length := by
  simp only [setSlice, List.length_append, List.length_take, List.length_drop]
  omega

theorem chunks_setSlice (D : Nat) (hD : D ≠ 0) :
    ∀ (s C : Nat) (l r : List Int), l.length = C * D → r.length = D → s < C →
      chunks D (setSlice l (s * D) r) = (chunks D l).set s r := by
  intro s
  induction s with
  | zero =>
    intro C l r hl hr hs
    match C with
    | 0 => omega
    | C + 1 =>
      have hDle : D ≤ l.length := by
        rw [hl]
        have : (C + 1) * D = C * D + D := by ring
        omega
      have hlne : l ≠ [] := by
        intro h
        subst h
        simp at hDle
        omega
      have h1 : setSlice l (0 * D) r = r ++ l.drop D := by
        simp [setSlice, hr]
      rw [h1, chunks_cons D hD r _ hr, chunks_expand D hD l hlne]
      rfl
  | succ s ih =>
    intro C l r hl hr hs
    match C with
    | 0 => omega
    | C + 1 =>
      have hDle : D ≤ l.length := by
        rw [hl]
        have : (C + 1) * D = C * D + D := by ring
        omega
      have hlne : l ≠ [] := by
        intro h
        subst h
        simp at hDle
        omega
      have ht : (l.take D).length = D := by
        simp only [List.length_take]
        omega
      have hd : (l.drop D).length = C * D := by
        simp only [List.length_drop, hl]
        have : (C + 1) * D = C * D + D := by ring
        omega
      have hsplit : setSlice l ((s + 1) * D) r = l.take D ++ setSlice (l.drop D) (s * D) r := by
        have e1 : (s + 1) * D = D + s * D := by ring
        have e2 : l.take ((s + 1) * D) = l.take D ++ (l.drop D).take (s * D) := by
          rw [e1, List.take_add]
        have e3 : l.drop ((s + 1) * D + r.length) = (l.drop D).drop (s * D + r.length) := by
          rw [List.drop_drop]
          congr 1
          omega
        simp only [setSlice, e2, e3, List.append_assoc]
      rw [hsplit, chunks_cons D hD _ _ ht, ih C (l.drop D) r hd hr (by omega),
        chunks_expand D hD l hlne]
      rfl

/-! ## Slot-level view of the producer loop -/

/-- Proof-side abstraction of the sequence of slot overwrites the streaming
loop performs: starting from slot contents `rows` and write cursor `i`, each
record lands in slot `i % C` and the cursor advances. -/
def writeRows (C : Nat) : List (List Int) → Nat → List (List Int) → List (List Int)
  | rows, _, [] => rows
  | rows, i, r :: rest => writeRows C (rows.set (i % C) r) (i + 1) rest

theorem writeRows_length (C : Nat) :
    ∀ (w : List (List Int)) (rows : List (List Int)) (i : Nat),
      (writeRows C rows i w).length = rows.length := by
  intro w
  induction w with
  | nil => intro rows i; rfl
  | cons r rest ih =>
    intro rows i
    show (writeRows C (rows.set (i % C) r) (i + 1) rest).length = rows.length
    rw [ih]
    simp

theorem writeRows_append (C : Nat) :
    ∀ (a b : List (List Int)) (rows : List (List Int)) (i : Nat),
      writeRows C rows i (a ++ b) = writeRows C (writeRows C rows i a) (i + a.length) b := by
  intro a
  induction a with
  | nil => intro b rows i; simp [writeRows]
  | cons r rest ih =>
    intro b rows i
    show writeRows C (rows.set (i % C) r) (i + 1) (rest ++ b) = _
    rw [ih]
    show _ = writeRows C (writeRows C (rows.set (i % C) r) (i + 1) rest) (i + (rest.length + 1)) b
    congr 1
    omega

/-- The record stored by the *last* write that lands in slot `s`, when the
writes `w` are issued starting at cursor `i`. -/
def lastHit (C : Nat) : Nat → List (List Int) → Nat → Option (List Int)
  | _, [], _ => none
  | i, r :: rest, s =>
    match lastHit C (i + 1) rest s with
    | some x => some x
    | none => if i % C = s then some r else none

theorem writeRows_getElem (C : Nat) :
    ∀ (w : List (List Int)) (rows : List (List Int)) (i s : Nat), s < rows.length →
      (writeRows C rows i w)[s]? =
        (match lastHit C i w s with
          | some x => some x
          | none => rows[s]?) := by
  intro w
  induction w with
  | nil => intro rows i s _; rfl
  | cons r rest ih =>
    intro rows i s hs
    show (writeRows C (rows.set (i % C) r) (i + 1) rest)[s]? = _
    rw [ih _ _ _ (by simpa using hs)]
    show (match lastHit C (i + 1) rest s with
      | some x => some x
      | none => (rows.set (i % C) r)[s]?) = _
    cases hlh : lastHit C (i + 1) rest s with
    | some x =>
      show some x = (match lastHit C i (r :: rest) s with
        | some x => some x
        | none => rows[s]?)
      show some x = (match (match lastHit C (i + 1) rest s with
        | some y => some y
        | none => if i % C = s then some r else none) with
        | some x => some x
        | none => rows[s]?)
      rw [hlh]
    | none =>
      show (rows.set (i % C) r)[s]? = (match (match lastHit C (i + 1) rest s with
        | some y => some y
        | none => if i % C = s then some r else none) with
        | some x => some x
        | none => rows[s]?)
      rw [hlh]
      by_cases heq : i % C = s
      · subst heq
        simp [List.getElem?_set, hs]
      · simp [List.getElem?_set, heq]

theorem lastHit_none (C : Nat) :
    ∀ (w : List (List Int)) (i s : Nat),
      (∀ k, k < w.length → (i + k) % C ≠ s) → lastHit C i w s = none := by
  intro w
  induction w with
  | nil => intro i s _; rfl
  | cons r rest ih =>
    intro i s h
    show (match lastHit C (i + 1) rest s with
      | some x => some x
      | none => if i % C = s then some r else none) = none
    have hrest : lastHit C (i + 1) rest s = none := by
      apply ih
      intro k hk
      have hk1 : k + 1 < (r :: rest).length := by simpa using Nat.succ_lt_succ hk
      have := h (k + 1) hk1
      have he : i + 1 + k = i + (k + 1) := by omega
      rw [he]
      exact this
    rw [hrest]
    have h0 : i % C ≠ s := by
      have := h 0 (by simp)
      simpa using this
    simp [h0]

theorem lastHit_last (C : Nat) :
    ∀ (w : List (List Int)) (i s k : Nat), k < w.length → (i + k) % C = s →
      (∀ j, k < j → j < w.length → (i + j) % C ≠ s) → lastHit C i w s = w[k]? := by
  intro w
  induction w with
  | nil => intro i s k hk; simp at hk
  | cons r rest ih =>
    intro i s k hk hhit hlater
    show (match lastHit C (i + 1) rest s with
      | some x => some x
      | none => if i % C = s then some r else none) = (r :: rest)[k]?
    match k with
    | 0 =>
      have hi : i % C = s := by simpa using hhit
      have hrest : lastHit C (i + 1) rest s = none := by
        apply lastHit_none
        intro j hj
        have := hlater (j + 1) (by omega) (by simpa using Nat.succ_lt_succ hj)
        have he : i + 1 + j = i + (j + 1) := by omega
        rw [he]
        exact this
      rw [hrest]
      simp [hi]
    | k + 1 =>
      have hk' : k < rest.length := by simpa using Nat.lt_of_succ_lt_succ hk
      have hhit' : (i + 1 + k) % C = s := by
        have he : i + 1 + k = i + (k + 1) := by omega
        rw [he]
        exact hhit
      have hlater' : ∀ j, k < j → j < rest.length → (i + 1 + j) % C ≠ s := by
        intro j hj hjlen
        have := hlater (j + 1) (by omega) (by simpa using Nat.succ_lt_succ hjlen)
        have he : i + 1 + j = i + (j + 1) := by omega
        rw [he]
        exact this
      rw [ih (i + 1) s k hk' hhit' hlater']
      have hsome : rest[k]? = some rest[k] := List.getElem?_eq_getElem hk'
      rw [hsome]
      simp

theorem window_hit_mod (C i s : Nat) (hC : 0 < C) (hs : s < C) :
    (i + (C + s - i % C) % C) % C = s := by
  have ha : i % C < C := Nat.mod_lt _ hC
  set a := i % C with hadef
  have hq : C * (i / C) + a = i := Nat.div_add_mod i C
  rcases Nat.lt_or_ge s a with hlt | hge
  · have hk : (C + s - a) % C = C + s - a := Nat.mod_eq_of_lt (by omega)
    rw [hk]
    have he : i + (C + s - a) = C * (i / C) + C + s := by omega
    rw [he]
    have he2 : C * (i / C) + C + s = C * (i / C + 1) + s := by ring
    rw [he2, Nat.mul_add_mod]
    exact Nat.mod_eq_of_lt hs
  · have hk : (C + s - a) % C = s - a := by
      have he : C + s - a = C + (s - a) := by omega
      rw [he, Nat.add_mod_left]
      exact Nat.mod_eq_of_lt (by omega)
    rw [hk]
    have he : i + (s - a) = C * (i / C) + s := by omega
    rw [he, Nat.mul_add_mod]
    exact Nat.mod_eq_of_lt hs

theorem window_hit_unique (C i s k j : Nat) (hj : j < C)
    (hkj : k < j) (h1 : (i + k) % C = s) (h2 : (i + j) % C = s) : False := by
  have hmod : (i + k) % C = (i + j) % C := by rw [h1, h2]
  have hcong : i + k ≡ i + j [MOD C] := hmod
  have hkjmod : k ≡ j [MOD C] := Nat.ModEq.add_left_cancel' i hcong
  have hdvd : C ∣ j - k := (Nat.modEq_iff_dvd' (Nat.le_of_lt hkj)).mp hkjmod
  have hpos : 0 < j - k := by omega
  have := Nat.le_of_dvd hpos hdvd
  omega

theorem lastHit_window (C : Nat) (hC : 0 < C) (w : List (List Int)) (hw : w.length = C)
    (i s : Nat) (hs : s < C) :
    lastHit C i w s = w[(C + s - i % C) % C]? := by
  have ha : i % C < C := Nat.mod_lt _ hC
  have hkC : (C + s - i % C) % C < C := Nat.mod_lt _ hC
  apply lastHit_last C w i s _ (by omega) (window_hit_mod C i s hC hs)
  intro j hkj hjlen hjhit
  exact window_hit_unique C i s _ j (by omega) hkj (window_hit_mod C i s hC hs) hjhit

theorem writeMany_chunks :
    ∀ (rs : List (List Int)) (ds : DataSource),
      ds.max_size ≠ 0 → ds.slice_size ≠ 0 →
      ds.data.length = ds.max_size * ds.slice_size →
      (∀ r ∈ rs, r.length = ds.slice_size) →
      (ds.writeMany rs).max_size = ds.max_size ∧
      (ds.writeMany rs).slice_size = ds.slice_size ∧
      (ds.writeMany rs).idx = ds.idx + rs.length ∧
      (ds.writeMany rs).data.length = ds.data.length ∧
      chunks ds.slice_size (ds.writeMany rs).data =
        writeRows ds.max_size (chunks ds.slice_size ds.data) ds.idx rs := by
  intro rs
  induction rs with
  | nil =>
    intro ds _ _ _ _
    refine ⟨rfl, rfl, by simp [DataSource.writeMany], rfl, rfl⟩
  | cons r rest ih =>
    intro ds hC hD hlen hr
    have hrlen : r.length = ds.slice_size := hr r (by simp)
    have hmodlt : ds.idx % ds.max_size < ds.max_size := Nat.mod_lt _ (Nat.pos_of_ne_zero hC)
    have hbound : (ds.idx % ds.max_size) * ds.slice_size + r.length ≤ ds.data.length := by
      rw [hlen, hrlen]
      have h1 : ds.idx % ds.max_size + 1 ≤ ds.max_size := hmodlt
      calc (ds.idx % ds.max_size) * ds.slice_size + ds.slice_size
          = (ds.idx % ds.max_size + 1) * ds.slice_size := by ring
        _ ≤ ds.max_size * ds.slice_size := Nat.mul_le_mul_right _ h1
    have hds1 : (ds.writeRec r).ds =
        { ds with
          data := setSlice ds.data ((ds.idx % ds.max_size) * ds.slice_size) r,
          idx := ds.idx + 1 } := by
      rw [DataSource.writeRec, if_neg hC, if_pos hrlen]
    have hstep : ds.writeMany (r :: rest) = ((ds.writeRec r).ds).writeMany rest := rfl
    have hlen1 : ((ds.writeRec r).ds).data.length =
        ((ds.writeRec r).ds).max_size * ((ds.writeRec r).ds).slice_size := by
      rw [hds1]
      show (setSlice ds.data _ r).length = ds.max_size * ds.slice_size
      rw [setSlice_length _ _ _ hbound, hlen]
    have ihr := ih ((ds.writeRec r).ds) (by rw [hds1]; exact hC) (by rw [hds1]; exact hD)
      hlen1 (by
        intro x hx
        rw [hds1]
        exact hr x (by simp [hx]))
    rw [hds1] at ihr
    refine ⟨?_, ?_, ?_, ?_, ?_⟩
    · rw [hstep, hds1]
      exact ihr.1
    · rw [hstep, hds1]
      exact ihr.2.1
    · rw [hstep, hds1]
      have := ihr.2.2.1
      simp only at this
      rw [this]
      simp [List.length_cons]
      omega
    · rw [hstep, hds1]
      have := ihr.2.2.2.1
      simp only at this
      rw [this]
      exact setSlice_length _ _ _ hbound
    · rw [hstep, hds1]
      have := ihr.2.2.2.2
      simp only at this
      rw [this]
      show writeRows ds.max_size
          (chunks ds.slice_size (setSlice ds.data ((ds.idx % ds.max_size) * ds.slice_size) r))
          (ds.idx + 1) rest =
        writeRows ds.max_size ((chunks ds.slice_size ds.data).set (ds.idx % ds.max_size) r)
          (ds.idx + 1) rest
      rw [chunks_setSlice ds.slice_size hD (ds.idx % ds.max_size) ds.max_size ds.data r
        hlen hrlen hmodlt]

theorem writeRows_rotate (C : Nat) (hC : 0 < C) (rows1 w : List (List Int))
    (h1 : rows1.length = C) (hw : w.length = C) (i0 : Nat) :
    (writeRows C rows1 i0 w).drop (i0 % C) ++ (writeRows C rows1 i0 w).take (i0 % C) = w := by
  set m := i0 % C with hm
  have hmC : m < C := Nat.mod_lt _ hC
  set rowsN := writeRows C rows1 i0 w with hrowsN
  have hNlen : rowsN.length = C := by rw [hrowsN, writeRows_length, h1]
  have hchar : ∀ s, s < C → rowsN[s]? = w[(C + s - m) % C]? := by
    intro s hs
    rw [hrowsN, writeRows_getElem C w rows1 i0 s (by rw [h1]; exact hs),
      lastHit_window C hC w hw i0 s hs]
    have hidx : (C + s - m) % C < w.length := by
      rw [hw]
      exact Nat.mod_lt _ hC
    rw [List.getElem?_eq_getElem hidx]
  apply List.ext_getElem?
  intro t
  by_cases htC : t < C
  · rw [List.getElem?_append]
    have hdl : (rowsN.drop m).length = C - m := by
      simp [List.length_drop, hNlen]
    by_cases ht1 : t < C - m
    · rw [if_pos (by rw [hdl]; exact ht1), List.getElem?_drop,
        hchar (m + t) (by omega)]
      have he : (C + (m + t) - m) % C = t := by
        have h2 : C + (m + t) - m = C + t := by omega
        rw [h2, Nat.add_mod_left]
        exact Nat.mod_eq_of_lt htC
      rw [he]
    · rw [if_neg (by rw [hdl]; omega), hdl, List.getElem?_take,
        if_pos (by omega : t - (C - m) < m), hchar (t - (C - m)) (by omega)]
      have he : (C + (t - (C - m)) - m) % C = t := by
        have h2 : C + (t - (C - m)) - m = t := by omega
        rw [h2]
        exact Nat.mod_eq_of_lt htC
      rw [he]
  · have hL : (rowsN.drop m ++ rowsN.take m).length ≤ t := by
      simp only [List.length_append, List.length_drop, List.length_take, hNlen]
      omega
    rw [List.getElem?_eq_none hL, List.getElem?_eq_none (by omega : w.length ≤ t)]

theorem writeRows_take_of_le (C : Nat) (hC : 0 < C) (rows0 : List (List Int))
    (rs : List (List Int)) (h0 : rows0.length = C) (hN : rs.length ≤ C) :
    (writeRows C rows0 0 rs).take rs.length = rs := by
  set N := rs.length with hNdef
  set rowsN := writeRows C rows0 0 rs with hrowsN
  have hNlen : rowsN.length = C := by rw [hrowsN, writeRows_length, h0]
  have hchar : ∀ s, s < N → rowsN[s]? = rs[s]? := by
    intro s hs
    rw [hrowsN, writeRows_getElem C rs rows0 0 s (by omega)]
    have hhit : (0 + s) % C = s := by
      rw [Nat.zero_add]
      exact Nat.mod_eq_of_lt (by omega)
    have hlater : ∀ j, s < j → j < rs.length → (0 + j) % C ≠ s := by
      intro j hsj hjlen
      rw [Nat.zero_add, Nat.mod_eq_of_lt (by omega)]
      omega
    rw [lastHit_last C rs 0 s s hs hhit hlater, List.getElem?_eq_getElem hs]
  apply List.ext_getElem?
  intro t
  by_cases ht : t < N
  · rw [List.getElem?_take, if_pos ht, hchar t ht]
  · have h2 : (rowsN.take N).length ≤ t := by
      simp only [List.length_take, hNlen]
      omega
    rw [List.getElem?_eq_none h2, List.getElem?_eq_none (by omega : rs.length ≤ t)]

/-! ## Claim theorems: the ring buffer (C1, C2) -/

/-- C1 (counterexample): the claim asserts that at the boundary `N = capacity`
all `capacity` records are returned, but `DataSource.get` tests
`idx > max_size` strictly, so after writing exactly `capacity` records the
read slices `data[:0]` and returns the empty sequence.  Concretely with
capacity 2 and record size 1, writing `[5]` then `[6]` and reading gives `[]`
rather than `[[5],[6]]`. -/
theorem C1_boundary_counterexample :
    ((((DataSource.fresh 2 1).writeMany [[5], [6]]).get).1 = GetResult.shaped []) ∧
    ((((DataSource.fresh 2 1).writeMany [[5], [6]]).get).1 ≠
      GetResult.shaped [[5], [6]]) := by
  refine ⟨rfl, ?_⟩
  decide

/-- C1 (amended): writing `r1..rN` with `N ≤ capacity` into a fresh or
just-read buffer (`idx = 0`, backing storage of the right length) and reading
once returns `[r1..rN]` in write order when `N < capacity`, but the boundary
case `N = capacity` returns the *empty* sequence, because the wrap test
`idx > max_size` misses it. -/
theorem C1_inorder_read (C D : Nat) (hC : 0 < C) (hD : 0 < D)
    (ds0 : DataSource) (hmax : ds0.max_size = C) (hslice : ds0.slice_size = D)
    (hdata : ds0.data.length = C * D) (hidx : ds0.idx = 0)
    (rs : List (List Int)) (hr : ∀ r ∈ rs, r.length = D) (hN : rs.length ≤ C) :
    ((ds0.writeMany rs).get).1 =
      (if rs.length = C then GetResult.shaped [] else GetResult.shaped rs) := by
  have hD' : D ≠ 0 := by omega
  obtain ⟨hm1, hm2, hm3, hm4, hm5⟩ := writeMany_chunks rs ds0
    (by rw [hmax]; omega) (by rw [hslice]; omega)
    (by rw [hmax, hslice]; exact hdata)
    (by intro r hrr; rw [hslice]; exact hr r hrr)
  set dsN := ds0.writeMany rs with hdsN
  set N := rs.length with hNdef
  have hmaxN : dsN.max_size = C := by rw [hm1, hmax]
  have hsliceN : dsN.slice_size = D := by rw [hm2, hslice]
  have hidxN : dsN.idx = N := by rw [hm3, hidx, Nat.zero_add]
  have hdataN : dsN.data.length = C * D := by rw [hm4, hdata]
  have hchN : chunks D dsN.data = writeRows C (chunks D ds0.data) 0 rs := by
    rw [hslice, hmax, hidx] at hm5
    exact hm5
  have hrows0 : (chunks D ds0.data).length = C := chunks_length D hD' C ds0.data hdata
  have hflat : dsN.getFlat = dsN.data.take ((N % C) * D) := by
    simp only [DataSource.getFlat, hmaxN, hsliceN, hidxN]
    rw [if_neg (by omega)]
  by_cases hNC : N = C
  · have hmod : N % C = 0 := by rw [hNC, Nat.mod_self]
    have hflat0 : dsN.getFlat = [] := by
      rw [hflat, hmod]
      simp
    rw [if_pos hNC]
    rw [show (dsN.get).1 = (if dsN.slice_size ≠ 0 ∧
        dsN.getFlat.length % dsN.slice_size = 0 then
        GetResult.shaped (chunks dsN.slice_size dsN.getFlat)
      else GetResult.unshaped dsN.getFlat) from rfl]
    rw [if_pos (by rw [hsliceN, hflat0]; exact ⟨by omega, by simp⟩)]
    rw [hflat0, hsliceN]
    rfl
  · have hlt : N < C := by omega
    have hmod : N % C = N := Nat.mod_eq_of_lt hlt
    have hNDle : N * D ≤ C * D := Nat.mul_le_mul_right _ (le_of_lt hlt)
    have hflatlen : dsN.getFlat.length = N * D := by
      rw [hflat, hmod]
      simp only [List.length_take, hdataN]
      omega
    rw [if_neg hNC]
    rw [show (dsN.get).1 = (if dsN.slice_size ≠ 0 ∧
        dsN.getFlat.length % dsN.slice_size = 0 then
        GetResult.shaped (chunks dsN.slice_size dsN.getFlat)
      else GetResult.unshaped dsN.getFlat) from rfl]
    rw [if_pos (by
      rw [hsliceN, hflatlen]
      exact ⟨by omega, Nat.mul_mod_left N D⟩)]
    rw [hsliceN, hflat, hmod,
      chunks_take D hD' N C dsN.data hdataN (le_of_lt hlt), hchN,
      writeRows_take_of_le C hC (chunks D ds0.data) rs hrows0 hN]

/-- Witness for C1_inorder_read: capacity 3, record size 1, writes
`[5]`, `[6]`; the read returns `[[5],[6]]` (and `2 = 3` is false, so the
if-branch selects the full list). -/
theorem C1_inorder_read_witness :
    (((DataSource.fresh 3 1).writeMany [[5], [6]]).get).1 =
      (if ([[5], [6]] : List (List Int)).length = 3 then GetResult.shaped []
        else GetResult.shaped [[5], [6]]) := by
  exact C1_inorder_read 3 1 (by decide) (by decide) (DataSource.fresh 3 1)
    rfl rfl (by decide) rfl [[5], [6]] (by decide) (by decide)

/-- C2: writing `N > capacity` well-formed records into a fresh or just-read
buffer and reading once returns exactly the last `capacity` records written,
oldest first — no duplicate, no gap. -/
theorem C2_wraparound_last_capacity (C D : Nat) (hC : 0 < C) (hD : 0 < D)
    (ds0 : DataSource) (hmax : ds0.max_size = C) (hslice : ds0.slice_size = D)
    (hdata : ds0.data.length = C * D) (hidx : ds0.idx = 0)
    (rs : List (List Int)) (hr : ∀ r ∈ rs, r.length = D) (hN : C < rs.length) :
    ((ds0.writeMany rs).get).1 = GetResult.shaped (rs.drop (rs.length - C)) := by
  have hD' : D ≠ 0 := by omega
  obtain ⟨hm1, hm2, hm3, hm4, hm5⟩ := writeMany_chunks rs ds0
    (by rw [hmax]; omega) (by rw [hslice]; omega)
    (by rw [hmax, hslice]; exact hdata)
    (by intro r hrr; rw [hslice]; exact hr r hrr)
  set dsN := ds0.writeMany rs with hdsN
  set N := rs.length with hNdef
  set m := N % C with hmdef
  have hmC : m < C := Nat.mod_lt _ hC
  have hmaxN : dsN.max_size = C := by rw [hm1, hmax]
  have hsliceN : dsN.slice_size = D := by rw [hm2, hslice]
  have hidxN : dsN.idx = N := by rw [hm3, hidx, Nat.zero_add]
  have hdataN : dsN.data.length = C * D := by rw [hm4, hdata]
  have hchN : chunks D dsN.data = writeRows C (chunks D ds0.data) 0 rs := by
    rw [hslice, hmax, hidx] at hm5
    exact hm5
  have hrows0 : (chunks D ds0.data).length = C := chunks_length D hD' C ds0.data hdata
  have hflat : dsN.getFlat = dsN.data.drop (m * D) ++ dsN.data.take (m * D) := by
    simp only [DataSource.getFlat, hmaxN, hsliceN, hidxN]
    rw [if_pos hN]
  have hmle : m * D ≤ C * D := Nat.mul_le_mul_right _ (le_of_lt hmC)
  have hflatlen : dsN.getFlat.length = C * D := by
    rw [hflat]
    simp only [List.length_append, List.length_drop, List.length_take, hdataN]
    omega
  rw [show (dsN.get).1 = (if dsN.slice_size ≠ 0 ∧
      dsN.getFlat.length % dsN.slice_size = 0 then
      GetResult.shaped (chunks dsN.slice_size dsN.getFlat)
    else GetResult.unshaped dsN.getFlat) from rfl]
  rw [if_pos (by
    rw [hsliceN, hflatlen]
    exact ⟨by omega, Nat.mul_mod_left C D⟩)]
  rw [hsliceN, hflat]
  have hdroplen : (dsN.data.drop (m * D)).length = (C - m) * D := by
    simp only [List.length_drop, hdataN]
    rw [Nat.sub_mul]
  rw [chunks_append D hD' (C - m) _ _ hdroplen,
    chunks_drop D hD' m C dsN.data hdataN (le_of_lt hmC),
    chunks_take D hD' m C dsN.data hdataN (le_of_lt hmC), hchN]
  have hta : (rs.take (N - C)).length = N - C := by
    simp only [List.length_take]
    omega
  have hsplit2 : writeRows C (chunks D ds0.data) 0 rs =
      writeRows C (writeRows C (chunks D ds0.data) 0 (rs.take (N - C))) (N - C)
        (rs.drop (N - C)) := by
    conv_lhs => rw [← List.take_append_drop (N - C) rs]
    rw [writeRows_append, hta, Nat.zero_add]
  have h1 : (writeRows C (chunks D ds0.data) 0 (rs.take (N - C))).length = C := by
    rw [writeRows_length, hrows0]
  have hw : (rs.drop (N - C)).length = C := by
    simp only [List.length_drop]
    omega
  have hmod : m = (N - C) % C := by
    rw [hmdef]
    conv_lhs => rw [show N = C + (N - C) from by omega]
    rw [Nat.add_mod_left]
  rw [hsplit2, hmod]
  exact congrArg GetResult.shaped (writeRows_rotate C hC _ _ h1 hw (N - C))

/-- Witness for C2_wraparound_last_capacity: capacity 2, record size 1,
writing `[1]`, `[2]`, `[3]` then reading returns the last two records
`[[2],[3]]` oldest first. -/
theorem C2_wraparound_witness :
    (((DataSource.fresh 2 1).writeMany [[1], [2], [3]]).get).1 =
      GetResult.shaped ([[1], [2], [3]].drop ([[1], [2], [3]].length - 2)) := by
  exact C2_wraparound_last_capacity 2 1 (by decide) (by decide)
    (DataSource.fresh 2 1) rfl rfl (by decide) rfl [[1], [2], [3]]
    (by decide) (by decide)

/-! ## Claim theorems: Track lifecycle (C3, C4) -/

/-- C3 (counterexample): the claim asserts both guards, but neither exists.
`Track.runtask` spawns a worker even while the status register reads
`running`; and `Track.stoptask` from the Idle state is *not* rejected by the
assertion — the Python substring test `"" in "testing,running"` passes — and
instead the `AttributeError` from `None.end_task` is caught and returned as
an error payload, with the state unchanged. -/
theorem C3_guard_counterexample :
    ((({ status := "running".toList, task := true, procSpawned := 1 } : Track).runtask
        false).procSpawned = 2) ∧
    ((Track.fresh.stoptask (.ok .pynone)).1 ≠ StopResult.assertionFailed) ∧
    ((Track.fresh.stoptask (.ok .pynone)).1 = StopResult.errorPayload
      "AttributeError: 'NoneType' object has no attribute 'end_task'") ∧
    ((Track.fresh.stoptask (.ok .pynone)).2 = Track.fresh) := by
  decide

/-- C3 (amended): `runtask` never rejects — it unconditionally overwrites the
status register and spawns a worker process even when a task is active; and
`stoptask` while Idle passes the substring-based assert (the empty status is
a substring of `"testing,running"`), then catches the `AttributeError` from
the unbound task handle and returns an error payload, leaving the status
register and the handle unchanged. -/
theorem C3_guard_amended (tr : Track) (b : Bool) (c : Except String PyVal)
    (idle : Track) (h1 : idle.status = []) (h2 : idle.task = false) :
    ((tr.runtask b).procSpawned = tr.procSpawned + 1) ∧
    ((idle.stoptask c).1 = StopResult.errorPayload
      "AttributeError: 'NoneType' object has no attribute 'end_task'") ∧
    ((idle.stoptask c).2 = idle) := by
  have hp : pyIn idle.status ("testing,running".toList) = true := by
    rw [h1]
    decide
  have hmain : idle.stoptask c = (StopResult.errorPayload
      "AttributeError: 'NoneType' object has no attribute 'end_task'", idle) := by
    simp only [Track.stoptask]
    rw [if_neg (fun hc => hc hp), if_pos h2]
  exact ⟨rfl, by rw [hmain], by rw [hmain]⟩

/-- Witness for C3_guard_amended at a concrete active tracker and the fresh
(idle) tracker. -/
theorem C3_guard_amended_witness :
    ((({ status := "testing".toList, task := true, procSpawned := 1 } : Track).runtask
        true).procSpawned = 1 + 1) ∧
    ((Track.fresh.stoptask (.error "remote gone")).1 = StopResult.errorPayload
      "AttributeError: 'NoneType' object has no attribute 'end_task'") ∧
    ((Track.fresh.stoptask (.error "remote gone")).2 = Track.fresh) :=
  C3_guard_amended { status := "testing".toList, task := true, procSpawned := 1 }
    true (.error "remote gone") Track.fresh rfl rfl

/-- C4 (counterexample): when the remote `end_task` call raises, `stoptask`
returns the error payload from its `except` clause *before* reaching the
status-reset lines, so the status register still reads `running` and the
task handle is still bound — the claim's "in both the success case and the
failure case the status register is reset to Idle and the proxy is released"
fails in the failure case. -/
theorem C4_reset_counterexample :
    ((({ status := "running".toList, task := true, procSpawned := 1 } : Track).stoptask
        (.error "boom")).1 = StopResult.errorPayload "boom") ∧
    ((({ status := "running".toList, task := true, procSpawned := 1 } : Track).stoptask
        (.error "boom")).2.status = "running".toList) ∧
    ((({ status := "running".toList, task := true, procSpawned := 1 } : Track).stoptask
        (.error "boom")).2.task = true) := by
  decide

/-- C4 (amended): from an active state, a failing remote `end_task` is caught
and returned as a structured error payload with the tracker state left
entirely unchanged; only on success is the status register cleared and the
handle released (returning the prior status string). -/
theorem C4_stoptask_amended (tr : Track)
    (hst : pyIn tr.status ("testing,running".toList) = true) (htask : tr.task = true) :
    (∀ e, (tr.stoptask (.error e)).1 = StopResult.errorPayload e ∧
      (tr.stoptask (.error e)).2 = tr) ∧
    (∀ v, (tr.stoptask (.ok v)).1 = StopResult.statusStr tr.status ∧
      (tr.stoptask (.ok v)).2 = { tr with status := [], task := false }) := by
  have hmain : ∀ c, tr.stoptask c = (match c with
      | .error e => (StopResult.errorPayload e, tr)
      | .ok _ => (StopResult.statusStr tr.status,
          { tr with status := [], task := false })) := by
    intro c
    simp only [Track.stoptask]
    rw [if_neg (fun hc => hc hst), if_neg (by simp [htask])]
  refine ⟨fun e => ?_, fun v => ?_⟩ <;> rw [hmain] <;> exact ⟨rfl, rfl⟩

/-- Witness for C4_stoptask_amended at a concrete active tracker. -/
theorem C4_stoptask_amended_witness :
    (((({ status := "testing".toList, task := true, procSpawned := 1 } : Track).stoptask
        (.error "boom")).1 = StopResult.errorPayload "boom") ∧
      ((({ status := "testing".toList, task := true, procSpawned := 1 } : Track).stoptask
        (.error "boom")).2 =
          { status := "testing".toList, task := true, procSpawned := 1 })) ∧
    (((({ status := "testing".toList, task := true, procSpawned := 1 } : Track).stoptask
        (.ok .pynone)).1 = StopResult.statusStr ("testing".toList)) ∧
      ((({ status := "testing".toList, task := true, procSpawned := 1 } : Track).stoptask
        (.ok .pynone)).2 =
          { status := [], task := false, procSpawned := 1 })) :=
  ⟨(C4_stoptask_amended { status := "testing".toList, task := true, procSpawned := 1 }
      (by decide) rfl).1 "boom",
   (C4_stoptask_amended { status := "testing".toList, task := true, procSpawned := 1 }
      (by decide) rfl).2 .pynone⟩

/-! ## Claim theorems: the RPC proxy (C5) and status labels (C6) -/

/-- C5 (counterexample): `FuncProxy.__call__` returns whatever `pipe.recv()`
produced, so a response carrying a remote exception object comes back as an
ordinary return value — it is not raised at the call site, contrary to the
claim (formalised by `specMethodProxyCall`, the behavior the spec describes). -/
theorem C5_raise_counterexample :
    ((FuncProxy.call "f" [] (PyVal.excObj "boom")).2 =
      Except.ok (PyVal.excObj "boom")) ∧
    ((specMethodProxyCall "f" [] (PyVal.excObj "boom")).2 = Except.error "boom") ∧
    ((FuncProxy.call "f" [] (PyVal.excObj "boom")).2 ≠
      (specMethodProxyCall "f" [] (PyVal.excObj "boom")).2) := by
  refine ⟨rfl, rfl, ?_⟩
  intro h
  cases h

/-- C5 (amended): the proxy does send `(name, args, kwargs)` and block for the
response, but it then returns the received value unconditionally — when the
remote dispatch raised, the carried exception object is *returned* as an
ordinary value rather than raised at the call site. -/
theorem C5_funcproxy_returns_response (cmd : String) (args : List PyVal) (r : PyVal) :
    FuncProxy.call cmd args r = ({ name := cmd, args := args }, Except.ok r) := rfl

/-- C6: the two status-label computations are inverted relative to each other.
`Track.runtask` (line 38) writes `testing` exactly when a `saveid` is present
— the opposite of the claim — while the worker (line 88) computes `running`
in that case, matching the claim; the two sides never agree. -/
theorem C6_status_label_inverted :
    ((Track.fresh.runtask true).status = "testing".toList) ∧
    (workerStatusLabel true = "running".toList) ∧
    (∀ b : Bool, (Track.fresh.runtask b).status ≠ workerStatusLabel b) := by
  decide

/-! ## Claim theorems: worker teardown (C7) -/

/-- C7: on the startup-failure exit the cleanup hook is *not* invoked: when
`Task(**kwargs)` raises, the worker forwards the error payload to the
notification sink, but the local `task` was never bound, so the final
`task.cleanup()` line raises `UnboundLocalError` and zero cleanup calls are
made — for every incoming-command script and every task-state trace. -/
theorem C7_startup_failure_skips_cleanup (e : String) (aliveAt : Nat → Bool)
    (script : List RecvRes) :
    ((runtaskWorker (.error e) aliveAt script).cleanupCalls = 0) ∧
    ((runtaskWorker (.error e) aliveAt script).websockError = some e) ∧
    ((runtaskWorker (.error e) aliveAt script).uncaught = some "UnboundLocalError") :=
  ⟨rfl, rfl, rfl⟩

/-! ## Claim theorems: ring-buffer integrity (C8) -/

/-- Modelled from the spec (§4.3 reshape contract, §7 IntegrityError, §8.7):
outcome of the write behavior the claim asserts — a record whose flattened
length is not a multiple of the record dimensionality raises IntegrityError
instead of being silently handled. -/
inductive SpecWriteOut where
  | ok (ds : DataSource)
  | integrityError
  deriving DecidableEq

/-- Modelled from the spec: the claimed write — IntegrityError on a malformed
record, the ordinary slot write otherwise.  Stated only to be compared with
the source's `DataSource.writeRec`. -/
def specIntegrityWrite (ds : DataSource) (rec : List Int) : SpecWriteOut :=
  if ds.slice_size ≠ 0 ∧ rec.length % ds.slice_size ≠ 0 then SpecWriteOut.integrityError
  else SpecWriteOut.ok (ds.writeRec rec).ds

/-- C8 (counterexample): with record dimensionality 3, forcing a write of a
malformed record of length 2 does *not* raise: the `ValueError` from the slice
assignment is swallowed by the bare `except:` in `DataSource.run` (which just
prints the record), leaving the buffer and index unchanged — whereas the
spec-modelled write yields IntegrityError. -/
theorem C8_integrity_counterexample :
    (specIntegrityWrite (DataSource.fresh 2 3) [5, 6] = SpecWriteOut.integrityError) ∧
    (((DataSource.fresh 2 3).writeRec [5, 6]).ds = DataSource.fresh 2 3) ∧
    (((DataSource.fresh 2 3).writeRec [5, 6]).caught = some "ValueError") := by
  decide

/-- C8 (amended): a malformed write is caught inside the loop and logged,
leaving the buffer storage and index unchanged (no partial write, but also no
propagating IntegrityError); and a read whose flat region fails the reshape
divisibility check likewise raises nothing — `get` catches the reshape error
and returns the undecoded flat data. -/
theorem C8_integrity_amended (ds : DataSource) (rec : List Int)
    (hne : rec.length ≠ ds.slice_size) :
    (((ds.writeRec rec).ds = ds) ∧ ((ds.writeRec rec).caught.isSome = true)) ∧
    (∀ ds2 : DataSource,
      ¬ (ds2.slice_size ≠ 0 ∧ ds2.getFlat.length % ds2.slice_size = 0) →
      (ds2.get).1 = GetResult.unshaped ds2.getFlat) := by
  constructor
  · unfold DataSource.writeRec
    by_cases h0 : ds.max_size = 0 <;> simp [h0, hne]
  · intro ds2 h
    rw [show (ds2.get).1 = (if ds2.slice_size ≠ 0 ∧
        ds2.getFlat.length % ds2.slice_size = 0 then
        GetResult.shaped (chunks ds2.slice_size ds2.getFlat)
      else GetResult.unshaped ds2.getFlat) from rfl]
    rw [if_neg h]

/-- Witness for C8_integrity_amended: the malformed write of `[5,6]` against
record size 3, and a read over a two-element flat region with record size 3. -/
theorem C8_integrity_amended_witness :
    ((((DataSource.fresh 2 3).writeRec [5, 6]).ds = DataSource.fresh 2 3) ∧
      (((DataSource.fresh 2 3).writeRec [5, 6]).caught.isSome = true)) ∧
    ((({ max_size := 2, slice_size := 3, data := [1, 2], idx := 1 } : DataSource).get).1 =
      GetResult.unshaped
        ({ max_size := 2, slice_size := 3, data := [1, 2], idx := 1 } : DataSource).getFlat) :=
  ⟨(C8_integrity_amended (DataSource.fresh 2 3) [5, 6] (by decide)).1,
   (C8_integrity_amended (DataSource.fresh 2 3) [5, 6] (by decide)).2
     { max_size := 2, slice_size := 3, data := [1, 2], idx := 1 } (by decide)⟩

/-! ## Claim theorems: producer-side index behavior (C9, C10) -/

/-- A producer state used as concrete counterexample input: index already at
5, streaming currently off, and the `self.stream` toggle event pending. -/
def togglePendingState : SrcState :=
  { ds := { max_size := 2, slice_size := 1, data := [7, 8], idx := 5 },
    streaming := false, streamEvent := true, sinkLog := [] }

/-- A concrete streaming producer state used by witnesses. -/
def streamingState : SrcState :=
  { ds := DataSource.fresh 2 1, streaming := true, streamEvent := false,
    sinkLog := [some [3]] }

/-- C9 (counterexample): the streaming-toggle step of the producer loop *does*
reset the index — turning streaming on executes `self.idx.value = 0`.  From a
state with `idx = 5`, a pending toggle and streaming off, one loop iteration
leaves `idx = 0`, so the producer-side index is not monotone. -/
theorem C9_toggle_reset_counterexample :
    (togglePendingState.toggleStep.ds.idx = 0) ∧
    ((togglePendingState.loopIter false (.ok .pynone) none).1.ds.idx = 0) ∧
    (togglePendingState.ds.idx = 5) ∧
    ¬ (togglePendingState.ds.idx ≤
        (togglePendingState.loopIter false (.ok .pynone) none).1.ds.idx) := by
  decide

/-- C9 (amended): command servicing leaves the buffer state untouched; the
sample step never decreases the index; each successful write stores its record
at physical slot `idx mod capacity` before incrementing the index; but the
streaming-toggle step resets the index to 0 exactly when it turns streaming
on (`self.idx.value = 0` before `system.start()`), and preserves it otherwise. -/
theorem C9_producer_index_amended (s : SrcState) (p : Bool)
    (d : Except String PyVal) (sm : Option (List Int)) :
    ((s.cmdStep p d).1 = s) ∧
    (s.ds.idx ≤ (s.sampleStep sm).ds.idx) ∧
    (s.toggleStep.ds.idx =
      (if s.streamEvent ∧ s.streaming = false then 0 else s.ds.idx)) ∧
    (∀ r : List Int, r.length = s.ds.slice_size → s.ds.max_size ≠ 0 →
      ((s.ds.writeRec r).ds.idx = s.ds.idx + 1) ∧
      ((s.ds.writeRec r).ds.data =
        setSlice s.ds.data ((s.ds.idx % s.ds.max_size) * s.ds.slice_size) r)) := by
  refine ⟨?_, ?_, ?_, ?_⟩
  · cases p <;> rfl
  · have hwr : ∀ (ds : DataSource) (r : List Int), ds.idx ≤ (ds.writeRec r).ds.idx := by
      intro ds r
      unfold DataSource.writeRec
      by_cases h0 : ds.max_size = 0
      · simp [h0]
      · by_cases hl : r.length = ds.slice_size <;> simp [h0, hl]
    unfold SrcState.sampleStep
    by_cases hs : s.streaming
    · cases sm with
      | none => simp [hs]
      | some dd => simpa [hs] using hwr s.ds dd
    · simp [hs]
  · unfold SrcState.toggleStep
    by_cases he : s.streamEvent
    · by_cases hstr : s.streaming <;> simp [he, hstr]
    · simp [he]
  · intro r hlen h0
    unfold DataSource.writeRec
    rw [if_neg h0, if_pos hlen]
    exact ⟨rfl, rfl⟩

/-- Witness for C9_producer_index_amended at a concrete streaming state and
the concrete well-formed record `[9]`. -/
theorem C9_producer_index_amended_witness :
    ((streamingState.cmdStep true (.error "hw")).1 = streamingState) ∧
    (streamingState.ds.idx ≤ (streamingState.sampleStep (some [9])).ds.idx) ∧
    (streamingState.toggleStep.ds.idx =
      (if streamingState.streamEvent ∧ streamingState.streaming = false then 0
        else streamingState.ds.idx)) ∧
    (((streamingState.ds.writeRec [9]).ds.idx = streamingState.ds.idx + 1) ∧
      ((streamingState.ds.writeRec [9]).ds.data =
        setSlice streamingState.ds.data
          ((streamingState.ds.idx % streamingState.ds.max_size) *
            streamingState.ds.slice_size) [9])) :=
  ⟨(C9_producer_index_amended streamingState true (.error "hw") (some [9])).1,
   (C9_producer_index_amended streamingState true (.error "hw") (some [9])).2.1,
   (C9_producer_index_amended streamingState true (.error "hw") (some [9])).2.2.1,
   (C9_producer_index_amended streamingState true (.error "hw") (some [9])).2.2.2
     [9] (by decide) (by decide)⟩

/-- C10: while streaming, a `None` sample from the hardware collaborator is
still fanned out to the sinks (`s.send` runs before the `None` test), but the
ring buffer is untouched for that iteration: no slot write, no index change,
and the streaming flags are unaffected. -/
theorem C10_none_sample_sinks_only (s : SrcState) (h : s.streaming = true) :
    ((s.sampleStep none).ds = s.ds) ∧
    ((s.sampleStep none).sinkLog = s.sinkLog ++ [none]) ∧
    ((s.sampleStep none).streaming = s.streaming) ∧
    ((s.sampleStep none).streamEvent = s.streamEvent) := by
  unfold SrcState.sampleStep
  simp [h]

/-- Witness for C10_none_sample_sinks_only at a concrete streaming state. -/
theorem C10_none_sample_sinks_only_witness :
    ((streamingState.sampleStep none).ds = streamingState.ds) ∧
    ((streamingState.sampleStep none).sinkLog = streamingState.sinkLog ++ [none]) ∧
    ((streamingState.sampleStep none).streaming = streamingState.streaming) ∧
    ((streamingState.sampleStep none).streamEvent = streamingState.streamEvent) :=
  C10_none_sample_sinks_only streamingState rfl
